import Mathlib

/-!
Verification of the sftpgo reconnecting SFTP client facade.

Shallow embedding of the Go package `sftpgo` (files `sftp_client.go` /
`sftp_conn.go` style, given as `src/unnamed/part_000`): a file-operation
facade over an SFTP session, a background reconnect-supervisor goroutine,
and a host-key verification callback.

Modelling conventions:
* a Go `error` value is `Option String` (`none` = nil, `some msg` = an error
  whose `Error()` message is `msg`);
* calling a method on a nil Go value (e.g. `err.Error()` on a nil `error`
  interface, or `io.Copy` into a nil `*sftp.File`) is a runtime panic,
  modelled by `ExecResult.panic`;
* channel sends are recorded as lists of the values sent;
* the opaque `*sftp.Client` session handle is the abstract type `Session`;
* external outcomes (`conn.Connect()`, `Session.Create`, `io.Copy`, the
  walker steps) are inputs of the embedded functions.
-/

namespace Sftpgo

/-- Outcome of running a piece of Go code: either a normal result or a
runtime panic. -/
inductive ExecResult (α : Type) where
  | ok : α → ExecResult α
  | panic : ExecResult α
deriving DecidableEq, Repr

/-- Abstract stand-in for the opaque `*sftp.Client` session handle. -/
structure Session where
  sid : Nat
deriving DecidableEq, Repr

/-- Go `strings.Contains(s, substr)`: substring containment on the
underlying character sequences. -/
def goStringsContains (s substr : String) : Bool :=
  decide (substr.data <:+: s.data)

/-- The values that `ConnectionLostHandler` sends on the `reconnect`
channel when called with a non-nil error whose message is `msg`:
`sc.reconnect <- true` exactly when the message contains
`"connection lost"`, nothing otherwise. -/
def clhSendsOf (msg : String) : List Bool :=
  if goStringsContains msg "connection lost" then [true] else []

/-- Model of `func (sc *sftpClient) ConnectionLostHandler(err error)`.

The body is `if strings.Contains(err.Error(), "connection lost") {
sc.reconnect <- true }`.  Calling `err.Error()` on a nil `error` interface
is a nil-pointer panic, hence the `none` case.  The `ok` payload is the
list of values sent on the `reconnect` channel. -/
def ConnectionLostHandler (err : Option String) : ExecResult (List Bool) :=
  match err with
  | none => ExecResult.panic
  | some msg => ExecResult.ok (clhSendsOf msg)

/-- Model of `func (sc *sftpClient) MoveFile(sourcePath, destPath string) error`:
`err := sc.Client.Rename(...); sc.ConnectionLostHandler(err); return err`.
The argument is the outcome of `Session.Rename`; the `ok` payload is the
returned error together with the reconnect-channel sends. -/
def MoveFile (renameResult : Option String) : ExecResult (Option String × List Bool) :=
  match ConnectionLostHandler renameResult with
  | ExecResult.panic => ExecResult.panic
  | ExecResult.ok sends => ExecResult.ok (renameResult, sends)

/-- Model of `func (sc *sftpClient) RemoveFile(dirPath string) error`:
`err := sc.Client.Remove(dirPath); sc.ConnectionLostHandler(err); return err`. -/
def RemoveFile (removeResult : Option String) : ExecResult (Option String × List Bool) :=
  match ConnectionLostHandler removeResult with
  | ExecResult.panic => ExecResult.panic
  | ExecResult.ok sends => ExecResult.ok (removeResult, sends)

/-- One iteration of the reconnect-supervisor goroutine body in `NewClient`,
having received `res` from the `reconnect` channel, with `connectResult`
the outcome `conn.Connect()` would produce if called:

```
case res := <-reconnect:
  if res {
    newConn, e := conn.Connect()
    if e == nil { ftpConn.Client = newConn; ftpConn.ReconnectStatus <- true }
    else        { ftpConn.ReconnectStatus <- false }
  }
```

Returns the new value of the shared `ftpConn.Client` reference and the
values published on the `ReconnectStatus` channel. -/
def supervisorStep (cur : Option Session) (res : Bool)
    (connectResult : Except String Session) : Option Session × List Bool :=
  if res then
    match connectResult with
    | Except.ok newConn => (some newConn, [true])
    | Except.error _ => (cur, [false])
  else (cur, [])

/-- One step of the underlying `sc.Client.Walk(remoteDir)` walker: either
the current walker item is an entry `(path, isDir)` with `walker.Err() ==
nil`, or `walker.Err()` reports a (non-nil) error with message `msg`. -/
inductive WalkStep where
  | entry (path : String) (isDir : Bool)
  | failure (msg : String)
deriving DecidableEq, Repr

/-- Loop of `func (sc *sftpClient) WalkFiles(remoteDir string)`:

```
files := []string{}
walker := sc.Client.Walk(remoteDir)
for walker.Step() {
  if err := walker.Err(); err != nil {
    sc.ConnectionLostHandler(err)
    return files, err
  }
  if !(walker.Stat().IsDir()) { files = append(files, walker.Path()) }
}
return files, nil
```

The walker is the list of steps it would yield; the result is the returned
`([]string, error)` pair together with the reconnect-channel sends of the
single `ConnectionLostHandler` call (empty when no error occurs). -/
def walkFilesLoop (files : List String) :
    List WalkStep → List String × Option String × List Bool
  | [] => (files, none, [])
  | WalkStep.failure msg :: _ => (files, some msg, clhSendsOf msg)
  | WalkStep.entry path isDir :: rest =>
      walkFilesLoop (if isDir then files else files ++ [path]) rest

/-- Model of `WalkFiles`, starting from the empty `files` slice. -/
def WalkFiles (steps : List WalkStep) : List String × Option String × List Bool :=
  walkFilesLoop [] steps

/-- The non-directory paths among a list of error-free walker steps, in
walker order (what the loop appends). -/
def collectedFiles (steps : List WalkStep) : List String :=
  steps.filterMap fun s =>
    match s with
    | WalkStep.entry path false => some path
    | _ => none

/-- Whether a walker step reports an error. -/
def WalkStep.isFailure : WalkStep → Bool
  | WalkStep.failure _ => true
  | _ => false

mutual
/-- A remote directory tree with no cycles: a non-directory file, or a
directory with an ordered list of children. -/
inductive FsTree where
  | file (name : String)
  | dir (name : String) (children : FsForest)
deriving DecidableEq, Repr
inductive FsForest where
  | nil
  | cons (t : FsTree) (ts : FsForest)
deriving DecidableEq, Repr
end

mutual
/-- Number of non-directory entries in a tree. -/
def FsTree.countFiles : FsTree → Nat
  | FsTree.file _ => 1
  | FsTree.dir _ children => children.countFiles
def FsForest.countFiles : FsForest → Nat
  | FsForest.nil => 0
  | FsForest.cons t ts => t.countFiles + ts.countFiles
end

mutual
/-- The steps the underlying walker yields on an error-free depth-first
traversal of a tree rooted below `base`: each entry is visited exactly
once, a directory before its children. -/
def FsTree.walkSteps : FsTree → String → List WalkStep
  | FsTree.file name, base => [WalkStep.entry (base ++ "/" ++ name) false]
  | FsTree.dir name children, base =>
      WalkStep.entry (base ++ "/" ++ name) true :: children.walkSteps (base ++ "/" ++ name)
def FsForest.walkSteps : FsForest → String → List WalkStep
  | FsForest.nil, _ => []
  | FsForest.cons t ts, base => t.walkSteps base ++ ts.walkSteps base
end

mutual
/-- The paths of the non-directory entries of a tree, in walker
depth-first order. -/
def FsTree.filePaths : FsTree → String → List String
  | FsTree.file name, base => [base ++ "/" ++ name]
  | FsTree.dir name children, base => children.filePaths (base ++ "/" ++ name)
def FsForest.filePaths : FsForest → String → List String
  | FsForest.nil, _ => []
  | FsForest.cons t ts, base => t.filePaths base ++ ts.filePaths base
end

/-- Go `strings.Split(s, sep)` for a single-character separator, on
character lists: `splitSep c [] = [[]]` (Go `Split("", sep) == [""]`),
and each occurrence of `c` starts a new piece. -/
def splitSep (c : Char) : List Char → List (List Char)
  | [] => [[]]
  | x :: xs =>
      let r := splitSep c xs
      if x = c then [] :: r else (x :: r.headD []) :: r.tail

/-- Core of Go `path/filepath.Clean` (Unix rules) on the list of
slash-separated elements: drop empty and `.` elements; `..` pops the last
kept element, except that at the root it is dropped and in a relative path
with nothing to pop it is kept.  `out` is the stack of kept elements in
reverse order. -/
def cleanCore (rooted : Bool) : List (List Char) → List (List Char) → List (List Char)
  | out, [] => out.reverse
  | out, s :: rest =>
      if s = [] ∨ s = ['.'] then cleanCore rooted out rest
      else if s = ['.', '.'] then
        match out with
        | [] => cleanCore rooted (if rooted then [] else [['.', '.']]) rest
        | a :: outTail =>
            if a = ['.', '.'] then cleanCore rooted (s :: out) rest
            else cleanCore rooted outTail rest
      else cleanCore rooted (s :: out) rest

/-- Whether a Unix path begins with the separator. -/
def isRooted : List Char → Bool
  | '/' :: _ => true
  | _ => false

/-- Go `strings.Join` / `filepath` element joining: interleave `c` between
the pieces. -/
def joinSep (c : Char) : List (List Char) → List Char
  | [] => []
  | [s] => s
  | s :: rest => s ++ c :: joinSep c rest

/-- Go `path/filepath.Clean` (Unix), on character lists: `Clean("") = "."`,
`Clean` of a rooted path keeps the leading `/`, an empty cleaned element
list collapses to `/` or `.`. -/
def goCleanL (cs : List Char) : List Char :=
  let rooted := isRooted cs
  let out := cleanCore rooted [] (splitSep '/' cs)
  if out = [] then (if rooted then ['/'] else ['.'])
  else (if rooted then '/' :: joinSep '/' out else joinSep '/' out)

/-- The portion of a path up to and including its last separator (empty if
the path has no separator): what `filepath.Dir` passes to `Clean`. -/
def keepThroughLastSlash (cs : List Char) : List Char :=
  ((cs.reverse.dropWhile fun c => ¬ (c = '/')).reverse)

/-- Go `path/filepath.Dir` (Unix): `Clean` of everything up to and
including the last separator; `Dir` of a separator-free path is `.`. -/
def goDirL (cs : List Char) : List Char :=
  goCleanL (keepThroughLastSlash cs)

/-- Go `path/filepath.Join(p, d)` for two elements: the empty elements are
skipped and the rest is joined with `/` and cleaned. -/
def goJoinL (p d : List Char) : List Char :=
  if p = [] then (if d = [] then [] else goCleanL d)
  else goCleanL (p ++ '/' :: d)

/-- The directory-creation loop shared by `PutFile` and `PutString`:

```
parent := filepath.Dir(remoteFile)
path := string(filepath.Separator)
dirs := strings.Split(parent, path)
for _, dir := range dirs {
  path = filepath.Join(path, dir)
  _ = sc.Client.Mkdir(path)
}
```

Returns the arguments of the successive `Mkdir` calls, in order.  The
`Mkdir` results are discarded by the source (`_ =`), so they are not
inputs. -/
def mkdirLoop (path : List Char) (acc : List (List Char)) :
    List (List Char) → List Char × List (List Char)
  | [] => (path, acc)
  | dir :: rest =>
      let p := goJoinL path dir
      mkdirLoop p (acc ++ [p]) rest

/-- The `Mkdir` arguments for `remoteFile`: the loop over
`strings.Split(filepath.Dir(remoteFile), "/")` starting from
`path = "/"`. -/
def mkdirPathsL (remoteFile : List Char) : List (List Char) :=
  (mkdirLoop ['/'] [] (splitSep '/' (goDirL remoteFile))).2

/-- Version of `mkdirPathsL` on strings. -/
def mkdirPaths (remoteFile : String) : List String :=
  (mkdirPathsL remoteFile.data).map fun l => String.mk l

/-- Observable events of a facade operation, in program order. -/
inductive Ev where
  | mkdir (path : String)
  | logError (tag : String)
  | handlerCall (msg : String)
  | reconnectSend (b : Bool)
  | copyAttempt (dstValid : Bool)
  | closeAttempt (dstValid : Bool)
deriving DecidableEq, Repr

/-- The `Ev.mkdir` events of the directory-creation loop for `remoteFile`. -/
def mkdirEvents (remoteFile : String) : List Ev :=
  (mkdirPaths remoteFile).map Ev.mkdir

/-- Model of `func (sc *sftpClient) PutString(text, remoteFile string) (err error)`.

Inputs beyond the source arguments: `createResult` is the outcome of
`sc.Client.Create(remoteFile)` (`ok` = a usable `*sftp.File`), `copyErr`
the error `io.Copy` would report when given a usable destination.

Source flow: run the mkdir loop; `dstFile, err := sc.Client.Create(...)`;
on error only log and call `ConnectionLostHandler` — there is no early
return — then `defer dstFile.Close()` and `io.Copy(dstFile, ...)` run
against the nil `dstFile`, a nil-pointer panic.  On a usable `dstFile` the
copy error is logged and the function returns `nil` unconditionally. -/
def PutString (text remoteFile : String) (createResult : Except String Unit)
    (copyErr : Option String) : List Ev × ExecResult (Option String) :=
  let _ := text
  match createResult with
  | Except.error msg =>
      (mkdirEvents remoteFile
         ++ [Ev.logError "Open a file on the remote:", Ev.handlerCall msg]
         ++ (clhSendsOf msg).map Ev.reconnectSend
         ++ [Ev.copyAttempt false, Ev.closeAttempt false],
       ExecResult.panic)
  | Except.ok _ =>
      (mkdirEvents remoteFile
         ++ [Ev.copyAttempt true]
         ++ (match copyErr with
             | some _ => [Ev.logError "Copy a text to remote:"]
             | none => [])
         ++ [Ev.closeAttempt true],
       ExecResult.ok none)

/-- Model of `func (sc *sftpClient) PutFile(localFile, remoteFile string) (err error)`.

Inputs beyond the source arguments: `localOpen` is the outcome of
`os.Open(localFile)`, `createResult` of `sc.Client.Create(remoteFile)`,
`copyErr` the error `io.Copy` reports.

Source flow: a local-open error is logged, routed to
`ConnectionLostHandler` and returned; then the mkdir loop runs; a `Create`
error is logged, routed and returned; otherwise the copy error (possibly
nil) is returned. -/
def PutFile (localOpen : Except String Unit) (remoteFile : String)
    (createResult : Except String Unit) (copyErr : Option String) :
    List Ev × ExecResult (Option String) :=
  match localOpen with
  | Except.error msg =>
      ([Ev.logError "Open file", Ev.handlerCall msg]
         ++ (clhSendsOf msg).map Ev.reconnectSend,
       ExecResult.ok (some msg))
  | Except.ok _ =>
      match createResult with
      | Except.error msg =>
          (mkdirEvents remoteFile
             ++ [Ev.logError "Create remote file", Ev.handlerCall msg]
             ++ (clhSendsOf msg).map Ev.reconnectSend,
           ExecResult.ok (some msg))
      | Except.ok _ =>
          (mkdirEvents remoteFile
             ++ [Ev.copyAttempt true, Ev.closeAttempt true],
           ExecResult.ok copyErr)

/-- The state `NewClient` returns: the facade object with its shared
current-`Client` reference, plus whether the background supervisor
goroutine (whose per-request behaviour is `supervisorStep`) was spawned. -/
structure ClientFacade where
  client : Option Session
  supervisorStarted : Bool
deriving DecidableEq, Repr

/-- Model of `func NewClient(conn SftpConn) (SftpClient, error)`:

```
client, err := conn.Connect()
...
ftpConn := &sftpClient{Client: client, reconnect: ..., ReconnectStatus: ...}
go func() { ... supervisor loop ... }()
return ftpConn, err
```

The facade pointer is always non-nil (`some`), its `Client` field is nil
exactly when the initial `Connect` failed, the goroutine is spawned
unconditionally, and the `Connect` error is returned alongside the
facade. -/
def NewClient (connectResult : Except String Session) :
    Option ClientFacade × Option String :=
  let client : Option Session :=
    match connectResult with
    | Except.ok s => some s
    | Except.error _ => none
  (some { client := client, supervisorStarted := true },
   match connectResult with
   | Except.ok _ => none
   | Except.error e => some e)

/-- The standard Go base64 alphabet (`encoding/base64.StdEncoding`). -/
def b64Alphabet : String :=
  "ABCDEFGHIJKLMNOPQRSTUVWXYZabcdefghijklmnopqrstuvwxyz0123456789+/"

/-- The base64 digit for a 6-bit value. -/
def b64Char (n : Nat) : Char := b64Alphabet.data.getD n 'A'

/-- Model of `encoding/base64.StdEncoding.EncodeToString` on a byte list (each byte
already reduced mod 256): groups of three bytes become four digits, a
final group of one or two bytes is padded with `=`. -/
def b64EncodeL : List Nat → List Char
  | [] => []
  | [b0] =>
      [b64Char (b0 / 4), b64Char (b0 % 4 * 16), '=', '=']
  | [b0, b1] =>
      [b64Char (b0 / 4), b64Char (b0 % 4 * 16 + b1 / 16), b64Char (b1 % 16 * 4), '=']
  | b0 :: b1 :: b2 :: rest =>
      b64Char (b0 / 4) :: b64Char (b0 % 4 * 16 + b1 / 16)
        :: b64Char (b1 % 16 * 4 + b2 / 64) :: b64Char (b2 % 64)
        :: b64EncodeL rest

/-- Model of `base64.StdEncoding.EncodeToString`, reducing each input byte mod
2^8. -/
def base64Std (bytes : List Nat) : String :=
  String.mk (b64EncodeL (bytes.map fun b => b % 256))

/-- An observed `ssh.PublicKey`: its `Type()` string and its `Marshal()`ed
wire bytes. -/
structure PublicKey where
  ktype : String
  marshaled : List Nat
deriving DecidableEq, Repr

/-- Model of `func keyString(k ssh.PublicKey) string`:
`k.Type() + " " + base64.StdEncoding.EncodeToString(k.Marshal())`. -/
def keyString (k : PublicKey) : String :=
  k.ktype ++ " " ++ base64Std k.marshaled

/-- Go `%q` (`strconv.Quote`) restricted to printable-ASCII content, which
covers key types, base64 text and configured fingerprints: wrap in double
quotes, escaping `"` and backslash. -/
def goQuote (s : String) : String :=
  String.mk ('"' :: (s.data.map fun c =>
    if c = '"' then ['\\', '"']
    else if c = '\\' then ['\\', '\\']
    else [c]).flatten ++ ['"'])

/-- Model of `func trustedHostKeyCallback(trustedKey string) ssh.HostKeyCallback`
applied to an observed key `k`; `none` = the callback returns nil
(accepts), `some msg` = it returns an error with message `msg`.

Empty `trustedKey`: log a warning containing `keyString k` and return nil.
Non-empty: return nil iff `trustedKey == keyString k`, else the
`"SSH-key verification: expected %q but got %q"` error. -/
def trustedHostKeyCallback (trustedKey : String) (k : PublicKey) : Option String :=
  if trustedKey = "" then
    none
  else
    let ks := keyString k
    if ¬ (trustedKey = ks) then
      some ("SSH-key verification: expected " ++ goQuote trustedKey
        ++ " but got " ++ goQuote ks)
    else none

/-- A well-formed path element: non-empty, slash-free, and not one of the
special elements `.` and `..` that `Clean` rewrites. -/
def ValidSeg (l : List Char) : Prop :=
  l ≠ [] ∧ '/' ∉ l ∧ l ≠ ['.'] ∧ l ≠ ['.', '.']

instance (l : List Char) : Decidable (ValidSeg l) := by
  unfold ValidSeg; infer_instance

/-- The absolute path with the given elements: `/` followed by the
elements joined by `/`. -/
def absPathL (ns : List (List Char)) : List Char :=
  '/' :: joinSep '/' ns

/-- The absolute ancestor prefixes `ms ++ (first k of ns)`, for k = 1 .. ns.length,
in root-to-leaf order. -/
def ancestorsFrom (ms : List (List Char)) : List (List Char) → List (List Char)
  | [] => []
  | n :: rest => absPathL (ms ++ [n]) :: ancestorsFrom (ms ++ [n]) rest

/-- The arguments of the `Mkdir` calls among the events of an operation,
in order. -/
def mkdirCallsOf (evs : List Ev) : List String :=
  evs.filterMap fun e =>
    match e with
    | Ev.mkdir p => some p
    | _ => none

/-! ## Theorems -/

/-- C1: for every (non-nil) error with message `m` passed to
`ConnectionLostHandler`, `true` is sent on the reconnect channel if and
only if `m` contains the substring `"connection lost"`; for every other
message nothing is sent on the reconnect channel. -/
theorem connectionLostHandler_signal_iff (m : String) :
    (ConnectionLostHandler (some m) = ExecResult.ok [true]
      ↔ "connection lost".data <:+: m.data)
    ∧ (ConnectionLostHandler (some m) = ExecResult.ok []
      ↔ ¬ "connection lost".data <:+: m.data) := by
  unfold ConnectionLostHandler clhSendsOf goStringsContains
  by_cases h : "connection lost".data <:+: m.data <;> simp [h]

/-- C2: processing a reconnect request: on `Connect` success the shared
current-`Session` reference is replaced by the new session and `true` is
published; on failure the reference is unchanged and `false` is published;
in both cases the published outcome equals whether `Connect` succeeded. -/
theorem supervisorStep_outcome (cur : Option Session)
    (connectResult : Except String Session) :
    (∀ s, connectResult = Except.ok s →
        supervisorStep cur true connectResult = (some s, [true]))
    ∧ (∀ e, connectResult = Except.error e →
        supervisorStep cur true connectResult = (cur, [false]))
    ∧ (supervisorStep cur true connectResult).2
        = [match connectResult with
           | Except.ok _ => true
           | Except.error _ => false] := by
  cases connectResult <;> simp [supervisorStep]

/-- Witness for C2 at concrete inputs. -/
theorem supervisorStep_outcome_witness :
    supervisorStep none true (Except.ok ⟨0⟩) = (some ⟨0⟩, [true])
    ∧ supervisorStep (some ⟨1⟩) true (Except.error "dial failed") = (some ⟨1⟩, [false]) :=
  ⟨(supervisorStep_outcome none (Except.ok ⟨0⟩)).1 ⟨0⟩ rfl,
   (supervisorStep_outcome (some ⟨1⟩) (Except.error "dial failed")).2.1 "dial failed" rfl⟩

/-- C3: the code evaluated at the failing input.  When the underlying
`Rename`/`Remove` succeeds (returns a nil error), `MoveFile` and
`RemoveFile` pass the nil error to `ConnectionLostHandler`, whose
`err.Error()` call panics instead of returning the nil error to the
caller. -/
theorem moveFile_removeFile_nil_panics :
    MoveFile none = ExecResult.panic ∧ RemoveFile none = ExecResult.panic :=
  ⟨rfl, rfl⟩

/-- C6: whenever the remote file is created, `PutString` returns nil
regardless of whether the byte-copy into it reports an error (the copy
error is only logged). -/
theorem putString_returns_nil (text remoteFile : String) (copyErr : Option String) :
    (PutString text remoteFile (Except.ok ()) copyErr).2 = ExecResult.ok none := by
  cases copyErr <;> rfl

/-- C9: when `Session.Create` fails inside `PutString`, execution does not
return early: the error is logged and routed to `ConnectionLostHandler`,
and the close and byte-copy are still attempted against the nil
destination handle (ending in a panic, not in an error return). -/
theorem putString_create_error_no_early_return (text remoteFile msg : String)
    (copyErr : Option String) :
    Ev.logError "Open a file on the remote:" ∈ (PutString text remoteFile (Except.error msg) copyErr).1
    ∧ Ev.handlerCall msg ∈ (PutString text remoteFile (Except.error msg) copyErr).1
    ∧ Ev.copyAttempt false ∈ (PutString text remoteFile (Except.error msg) copyErr).1
    ∧ Ev.closeAttempt false ∈ (PutString text remoteFile (Except.error msg) copyErr).1
    ∧ (PutString text remoteFile (Except.error msg) copyErr).2 = ExecResult.panic := by
  refine ⟨?_, ?_, ?_, ?_, rfl⟩ <;> simp [PutString]

/-- C10: `NewClient` always returns a non-nil facade with the supervisor
goroutine started; when the initial `Connect` fails the current facade
session is nil and the `Connect` error is returned alongside the facade. -/
theorem newClient_facade_alongside_error (connectResult : Except String Session) :
    (NewClient connectResult).1.isSome = true
    ∧ ((NewClient connectResult).1.map ClientFacade.supervisorStarted = some true)
    ∧ (∀ e, connectResult = Except.error e →
        NewClient connectResult
          = (some { client := none, supervisorStarted := true }, some e)) := by
  cases connectResult <;> simp [NewClient]

/-- Witness for C10 at a concrete failing `Connect`. -/
theorem newClient_facade_alongside_error_witness :
    NewClient (Except.error "connect refused")
      = (some { client := none, supervisorStarted := true }, some "connect refused") :=
  (newClient_facade_alongside_error (Except.error "connect refused")).2.2
    "connect refused" rfl

/-- Helper: the walk loop over error-free steps followed by a failing step
returns the accumulator extended by exactly the non-directory paths seen
before the failure, together with the message of the failure. -/
theorem walkFilesLoop_first_failure (pre : List WalkStep) (post : List WalkStep)
    (msg : String) :
    ∀ acc : List String, (∀ s ∈ pre, s.isFailure = false) →
    walkFilesLoop acc (pre ++ WalkStep.failure msg :: post)
      = (acc ++ collectedFiles pre, some msg, clhSendsOf msg) := by
  induction pre with
  | nil =>
      intro acc _
      simp [walkFilesLoop, collectedFiles]
  | cons s rest ih =>
      intro acc hpre
      cases s with
      | failure m =>
          exact absurd (hpre _ (List.mem_cons_self _ _)) (by simp [WalkStep.isFailure])
      | entry p d =>
          have hrest : ∀ s ∈ rest, s.isFailure = false := fun s hs =>
            hpre s (List.mem_cons_of_mem _ hs)
          cases d with
          | true =>
              simpa [walkFilesLoop, collectedFiles] using ih acc hrest
          | false =>
              simpa [walkFilesLoop, collectedFiles, List.append_assoc]
                using ih (acc ++ [p]) hrest

/-- C4: if some step of the underlying walker reports an error, `WalkFiles`
stops at the first such step and returns the non-directory paths collected
before it together with that (non-nil) error; no entries after the failing
step are included. -/
theorem walkFiles_stops_at_first_failure (steps pre post : List WalkStep) (msg : String)
    (hsplit : steps = pre ++ WalkStep.failure msg :: post)
    (hpre : ∀ s ∈ pre, s.isFailure = false) :
    WalkFiles steps = (collectedFiles pre, some msg, clhSendsOf msg) := by
  subst hsplit
  simpa using walkFilesLoop_first_failure pre post msg [] hpre

/-- Witness for C4 at a concrete walk trace. -/
theorem walkFiles_stops_at_first_failure_witness :
    WalkFiles [WalkStep.entry "/r" true, WalkStep.entry "/r/a.txt" false,
        WalkStep.failure "permission denied", WalkStep.entry "/r/b.txt" false]
      = (["/r/a.txt"], some "permission denied", []) := by
  have h := walkFiles_stops_at_first_failure _
    [WalkStep.entry "/r" true, WalkStep.entry "/r/a.txt" false]
    [WalkStep.entry "/r/b.txt" false] "permission denied" rfl (by decide)
  exact h.trans (by decide)

mutual
/-- Helper: running the walk loop over the steps of a tree prepends the
non-directory paths of the tree to the accumulator and continues with the
remaining steps. -/
theorem walkFilesLoop_tree (t : FsTree) (base : String) (acc : List String)
    (rest : List WalkStep) :
    walkFilesLoop acc (t.walkSteps base ++ rest)
      = walkFilesLoop (acc ++ t.filePaths base) rest := by
  cases t with
  | file name =>
      simp [FsTree.walkSteps, FsTree.filePaths, walkFilesLoop]
  | dir name children =>
      simp only [FsTree.walkSteps, FsTree.filePaths, List.cons_append, walkFilesLoop]
      exact walkFilesLoop_forest children (base ++ "/" ++ name) acc rest

/-- Helper: forest version of `walkFilesLoop_tree`. -/
theorem walkFilesLoop_forest (ts : FsForest) (base : String) (acc : List String)
    (rest : List WalkStep) :
    walkFilesLoop acc (ts.walkSteps base ++ rest)
      = walkFilesLoop (acc ++ ts.filePaths base) rest := by
  cases ts with
  | nil => simp [FsForest.walkSteps, FsForest.filePaths]
  | cons t ts2 =>
      simp only [FsForest.walkSteps, FsForest.filePaths, List.append_assoc]
      rw [walkFilesLoop_tree, walkFilesLoop_forest, List.append_assoc]
end

mutual
/-- Helper: the path list of a tree has one entry per non-directory node. -/
theorem filePaths_length_tree (t : FsTree) (base : String) :
    (t.filePaths base).length = t.countFiles := by
  cases t with
  | file name => simp [FsTree.filePaths, FsTree.countFiles]
  | dir name children =>
      simp only [FsTree.filePaths, FsTree.countFiles]
      exact filePaths_length_forest children (base ++ "/" ++ name)

/-- Helper: forest version of `filePaths_length_tree`. -/
theorem filePaths_length_forest (ts : FsForest) (base : String) :
    (ts.filePaths base).length = ts.countFiles := by
  cases ts with
  | nil => simp [FsForest.filePaths, FsForest.countFiles]
  | cons t ts2 =>
      simp only [FsForest.filePaths, FsForest.countFiles, List.length_append]
      rw [filePaths_length_tree, filePaths_length_forest]
end

/-- C5: on an error-free traversal of a cycle-free tree, `WalkFiles`
returns exactly the paths of the non-directory entries, in walker
order, with every directory excluded, no error, and no reconnect signal;
the number of returned paths is the number of non-directory entries. -/
theorem walkFiles_tree_collects_files (t : FsTree) (base : String) :
    WalkFiles (t.walkSteps base) = (t.filePaths base, none, [])
    ∧ (t.filePaths base).length = t.countFiles := by
  constructor
  · have h := walkFilesLoop_tree t base [] []
    simpa [WalkFiles, walkFilesLoop] using h
  · exact filePaths_length_tree t base

/-- C8: the verifier built from an empty trusted-key string always
accepts; the verifier built from a non-empty trusted-key string accepts
iff the trusted key equals the fingerprint string of the observed key
`"<key-type> <base64-of-marshaled-key>"` byte for byte, and otherwise
returns the error naming the expected and got values. -/
theorem trustedHostKeyCallback_spec (tk : String) (k : PublicKey) :
    (tk = "" → trustedHostKeyCallback tk k = none)
    ∧ (tk ≠ "" →
        ((trustedHostKeyCallback tk k = none ↔ tk = keyString k)
          ∧ (tk ≠ keyString k →
              trustedHostKeyCallback tk k
                = some ("SSH-key verification: expected " ++ goQuote tk
                    ++ " but got " ++ goQuote (keyString k)))))
    ∧ keyString k = k.ktype ++ " " ++ base64Std k.marshaled := by
  refine ⟨?_, ?_, rfl⟩
  · intro h
    simp [trustedHostKeyCallback, h]
  · intro hne
    by_cases heq : tk = keyString k <;>
      simp [trustedHostKeyCallback, hne, heq, keyString]

/-- Witness for C8: an empty trusted key accepts any key; a non-empty
trusted key accepts exactly its own fingerprint and rejects another. -/
theorem trustedHostKeyCallback_spec_witness :
    trustedHostKeyCallback "" ⟨"ssh-rsa", [0, 1, 2]⟩ = none
    ∧ (trustedHostKeyCallback "ssh-rsa AAEC" ⟨"ssh-rsa", [0, 1, 2]⟩ = none
        ↔ ("ssh-rsa AAEC" : String) = keyString ⟨"ssh-rsa", [0, 1, 2]⟩)
    ∧ trustedHostKeyCallback "other" ⟨"ssh-rsa", [0, 1, 2]⟩
        = some ("SSH-key verification: expected " ++ goQuote "other"
            ++ " but got " ++ goQuote (keyString ⟨"ssh-rsa", [0, 1, 2]⟩)) :=
  ⟨(trustedHostKeyCallback_spec "" ⟨"ssh-rsa", [0, 1, 2]⟩).1 rfl,
   ((trustedHostKeyCallback_spec "ssh-rsa AAEC" ⟨"ssh-rsa", [0, 1, 2]⟩).2.1
      (by decide)).1,
   ((trustedHostKeyCallback_spec "other" ⟨"ssh-rsa", [0, 1, 2]⟩).2.1
      (by decide)).2 (by decide)⟩

/-- Helper: a split is never the empty list of pieces. -/
theorem splitSep_ne_nil (c : Char) (l : List Char) : splitSep c l ≠ [] := by
  cases l with
  | nil => simp [splitSep]
  | cons x xs =>
      by_cases h : x = c <;> simp [splitSep, h]

/-- Helper: a leading separator contributes a leading empty piece. -/
theorem splitSep_cons_sep (c : Char) (l : List Char) :
    splitSep c (c :: l) = [] :: splitSep c l := by
  simp [splitSep]

/-- Helper: a separator-free list is a single piece. -/
theorem splitSep_no_sep (c : Char) (l : List Char) (h : c ∉ l) :
    splitSep c l = [l] := by
  induction l with
  | nil => rfl
  | cons x xs ih =>
      have hx : ¬ x = c := fun hxc => h (hxc ▸ List.mem_cons_self x xs)
      have hxs : c ∉ xs := fun hm => h (List.mem_cons_of_mem _ hm)
      simp [splitSep, hx, ih hxs]

/-- Helper: splitting at the first separator occurrence. -/
theorem splitSep_append_no_sep (c : Char) (l₁ l₂ : List Char) (h : c ∉ l₁) :
    splitSep c (l₁ ++ c :: l₂) = l₁ :: splitSep c l₂ := by
  induction l₁ with
  | nil => simpa using splitSep_cons_sep c l₂
  | cons x xs ih =>
      have hx : ¬ x = c := fun hxc => h (hxc ▸ List.mem_cons_self x xs)
      have hxs : c ∉ xs := fun hm => h (List.mem_cons_of_mem _ hm)
      simp [splitSep, hx, ih hxs]

/-- Helper: a trailing separator contributes a trailing empty piece. -/
theorem splitSep_append_sep (c : Char) (l : List Char) :
    splitSep c (l ++ [c]) = splitSep c l ++ [[]] := by
  induction l with
  | nil => simp [splitSep]
  | cons x xs ih =>
      by_cases h : x = c
      · subst h
        simp [splitSep_cons_sep, ih]
      · have hne := splitSep_ne_nil c xs
        cases hA : splitSep c xs with
        | nil => exact absurd hA hne
        | cons y ys =>
            simp [splitSep, h, ih, hA]

/-- Helper: unfolding `joinSep` on a list with at least two pieces. -/
theorem joinSep_cons (c : Char) (s : List Char) (rest : List (List Char))
    (h : rest ≠ []) :
    joinSep c (s :: rest) = s ++ c :: joinSep c rest := by
  cases rest with
  | nil => exact absurd rfl h
  | cons r rs => rfl

/-- Helper: appending one piece to a non-empty join. -/
theorem joinSep_append_singleton (c : Char) (ms : List (List Char))
    (n : List Char) (h : ms ≠ []) :
    joinSep c (ms ++ [n]) = joinSep c ms ++ c :: n := by
  induction ms with
  | nil => exact absurd rfl h
  | cons m rest ih =>
      cases rest with
      | nil => simp [joinSep]
      | cons r rs =>
          rw [List.cons_append, joinSep_cons c m (r :: rs ++ [n]) (by simp),
            joinSep_cons c m (r :: rs) (by simp), ih (by simp)]
          simp

/-- Helper: splitting a join of separator-free pieces recovers the
pieces. -/
theorem splitSep_joinSep (c : Char) (ns : List (List Char)) (hne : ns ≠ [])
    (h : ∀ n ∈ ns, c ∉ n) :
    splitSep c (joinSep c ns) = ns := by
  induction ns with
  | nil => exact absurd rfl hne
  | cons n rest ih =>
      cases rest with
      | nil =>
          simpa [joinSep] using splitSep_no_sep c n (h n (List.mem_cons_self _ _))
      | cons r rs =>
          rw [joinSep_cons c n (r :: rs) (by simp),
            splitSep_append_no_sep c n _ (h n (List.mem_cons_self _ _)),
            ih (by simp) (fun m hm => h m (List.mem_cons_of_mem _ hm))]

/-- Helper: on elements that are each well-formed or empty, `cleanCore`
keeps exactly the non-empty ones, appended to the reversed stack. -/
theorem cleanCore_valid (rooted : Bool) (l : List (List Char))
    (h : ∀ s ∈ l, ValidSeg s ∨ s = []) :
    ∀ out, cleanCore rooted out l
      = out.reverse ++ l.filter (fun s => decide (s ≠ [])) := by
  induction l with
  | nil => intro out; simp [cleanCore]
  | cons s rest ih =>
      intro out
      have hrest : ∀ t ∈ rest, ValidSeg t ∨ t = [] := fun t ht =>
        h t (List.mem_cons_of_mem _ ht)
      rcases h s (List.mem_cons_self _ _) with hv | hnil
      · obtain ⟨h1, _, h3, h4⟩ := hv
        simp only [cleanCore]
        rw [if_neg (by simp [h1, h3]), if_neg h4, ih hrest]
        simp [h1]
      · subst hnil
        simp only [cleanCore]
        rw [if_pos (Or.inl trivial), ih hrest]
        simp

/-- Helper: `Clean` leaves a well-formed absolute path unchanged. -/
theorem goCleanL_absPath (ns : List (List Char)) (hns : ∀ n ∈ ns, ValidSeg n) :
    goCleanL (absPathL ns) = absPathL ns := by
  cases hn : ns with
  | nil =>
      subst hn
      rfl
  | cons n rest =>
      rw [← hn]
      have hne : ns ≠ [] := by simp [hn]
      have hroot : isRooted (absPathL ns) = true := rfl
      have hsplit : splitSep '/' (absPathL ns) = [] :: ns := by
        rw [absPathL, splitSep_cons_sep,
          splitSep_joinSep '/' ns hne (fun n hm => (hns n hm).2.1)]
      have hvalid : ∀ s ∈ ([] : List Char) :: ns, ValidSeg s ∨ s = [] :=
        fun s hs => by
          rcases List.mem_cons.1 hs with h | h
          · exact Or.inr h
          · exact Or.inl (hns s h)
      have hout : cleanCore true [] ([] :: ns) = ns := by
        rw [cleanCore_valid true ([] :: ns) hvalid []]
        simp
        intro s hs
        exact (hns s hs).1
      rw [goCleanL]
      simp only [hroot, hsplit, hout]
      simp [hne, absPathL]

/-- Helper: `Join`ing one more well-formed element onto a well-formed
absolute path appends it. -/
theorem goJoinL_absPath (ms : List (List Char)) (n : List Char)
    (hms : ∀ m ∈ ms, ValidSeg m) (hn : ValidSeg n) :
    goJoinL (absPathL ms) n = absPathL (ms ++ [n]) := by
  have hp : absPathL ms ≠ [] := by simp [absPathL]
  rw [goJoinL, if_neg hp]
  cases hm : ms with
  | nil =>
      subst hm
      have : absPathL [] ++ '/' :: n = '/' :: '/' :: n := rfl
      rw [this]
      have hsplit : splitSep '/' ('/' :: '/' :: n) = [[], [], n] := by
        rw [splitSep_cons_sep, splitSep_cons_sep, splitSep_no_sep '/' n hn.2.1]
      have hvalid : ∀ s ∈ [([] : List Char), [], n], ValidSeg s ∨ s = [] := by
        intro s hs
        rcases List.mem_cons.1 hs with h | hs2
        · exact Or.inr h
        rcases List.mem_cons.1 hs2 with h | hs3
        · exact Or.inr h
        · have : s = n := by simpa using hs3
          exact Or.inl (this ▸ hn)
      have hout : cleanCore true [] [[], [], n] = [n] := by
        rw [cleanCore_valid true _ hvalid []]
        simp [hn.1]
      rw [goCleanL]
      have hroot : isRooted ('/' :: '/' :: n) = true := rfl
      simp only [hroot, hsplit, hout]
      simp [absPathL, joinSep]
  | cons m rest =>
      rw [← hm]
      have hne : ms ≠ [] := by simp [hm]
      have harg : absPathL ms ++ '/' :: n = absPathL (ms ++ [n]) := by
        rw [absPathL, absPathL, joinSep_append_singleton '/' ms n hne]
        rfl
      rw [harg]
      exact goCleanL_absPath (ms ++ [n]) fun t ht => by
        rcases List.mem_append.1 ht with h | h
        · exact hms t h
        · have : t = n := by simpa using h
          exact this ▸ hn

/-- Helper: dropping from a slash-free list down to a slash. -/
theorem dropWhile_no_slash (f r : List Char) (h : '/' ∉ f) :
    ((f ++ '/' :: r).dropWhile fun c => ¬ (c = '/')) = '/' :: r := by
  induction f with
  | nil => simp [List.dropWhile]
  | cons x xs ih =>
      have hx : ¬ x = '/' := fun hxc => h (hxc ▸ List.mem_cons_self x xs)
      have hxs : '/' ∉ xs := fun hm => h (List.mem_cons_of_mem _ hm)
      simp only [List.cons_append, List.dropWhile_cons]
      rw [if_pos (by simp [hx])]
      exact ih hxs

/-- Helper: the keep-through-last-slash of `r ++ "/" ++ f` with `f`
slash-free is `r ++ "/"`. -/
theorem keepThroughLastSlash_concat (r f : List Char) (h : '/' ∉ f) :
    keepThroughLastSlash (r ++ '/' :: f) = r ++ ['/'] := by
  rw [keepThroughLastSlash]
  have : (r ++ '/' :: f).reverse = f.reverse ++ '/' :: r.reverse := by
    simp
  rw [this, dropWhile_no_slash f.reverse r.reverse (by simpa using h)]
  simp

/-- Helper: `filepath.Dir` of a well-formed absolute file path is the
absolute path of its directory elements. -/
theorem goDirL_absPath (ns : List (List Char)) (fname : List Char)
    (hns : ∀ n ∈ ns, ValidSeg n) (hf : ValidSeg fname) :
    goDirL (absPathL (ns ++ [fname])) = absPathL ns := by
  cases hn : ns with
  | nil =>
      subst hn
      have harg : absPathL ([] ++ [fname]) = [] ++ '/' :: fname := rfl
      rw [goDirL, harg, keepThroughLastSlash_concat [] fname hf.2.1]
      rfl
  | cons m rest =>
      rw [← hn]
      have hne : ns ≠ [] := by simp [hn]
      have harg : absPathL (ns ++ [fname])
          = ('/' :: joinSep '/' ns) ++ '/' :: fname := by
        rw [absPathL, joinSep_append_singleton '/' ns fname hne]
        simp
      rw [goDirL, harg, keepThroughLastSlash_concat _ fname hf.2.1]
      have hsplit : splitSep '/' (('/' :: joinSep '/' ns) ++ ['/'])
          = [] :: ns ++ [[]] := by
        rw [List.cons_append, splitSep_cons_sep, splitSep_append_sep,
          splitSep_joinSep '/' ns hne (fun n hm => (hns n hm).2.1)]
        rfl
      have hvalid : ∀ s ∈ ([] :: ns ++ [[]] : List (List Char)), ValidSeg s ∨ s = [] := by
        intro s hs
        rcases List.mem_cons.1 hs with h | hs2
        · exact Or.inr h
        rcases List.mem_append.1 hs2 with h | h
        · exact Or.inl (hns s h)
        · exact Or.inr (by simpa using h)
      have hout : cleanCore true [] ([] :: ns ++ [[]]) = ns := by
        rw [cleanCore_valid true _ hvalid []]
        simp
        intro s hs
        exact (hns s hs).1
      rw [goCleanL]
      have hroot : isRooted (('/' :: joinSep '/' ns) ++ ['/']) = true := rfl
      simp only [hroot, hsplit, hout]
      simp [hne, absPathL]

/-- Helper: `ancestorsFrom` yields one prefix per element. -/
theorem ancestorsFrom_length (ns : List (List Char)) :
    ∀ ms, (ancestorsFrom ms ns).length = ns.length := by
  induction ns with
  | nil => intro ms; rfl
  | cons n rest ih =>
      intro ms
      simp [ancestorsFrom, ih]

/-- Helper: the mkdir loop over well-formed elements starting at a
well-formed absolute path visits exactly the successive ancestor
prefixes. -/
theorem mkdirLoop_valid (ns : List (List Char)) :
    ∀ ms acc, (∀ n ∈ ns, ValidSeg n) → (∀ m ∈ ms, ValidSeg m) →
    mkdirLoop (absPathL ms) acc ns = (absPathL (ms ++ ns), acc ++ ancestorsFrom ms ns) := by
  induction ns with
  | nil =>
      intro ms acc _ _
      simp [mkdirLoop, ancestorsFrom]
  | cons n rest ih =>
      intro ms acc hns hms
      have hn : ValidSeg n := hns n (List.mem_cons_self _ _)
      have hrest : ∀ t ∈ rest, ValidSeg t := fun t ht => hns t (List.mem_cons_of_mem _ ht)
      have hms2 : ∀ m ∈ ms ++ [n], ValidSeg m := by
        intro m hm
        rcases List.mem_append.1 hm with h | h
        · exact hms m h
        · exact (by simpa using h : m = n) ▸ hn
      rw [mkdirLoop]
      simp only [goJoinL_absPath ms n hms hn]
      rw [ih (ms ++ [n]) (acc ++ [absPathL (ms ++ [n])]) hrest hms2]
      simp [ancestorsFrom]

/-- Helper: the mkdir calls of a concatenation. -/
theorem mkdirCallsOf_append (a b : List Ev) :
    mkdirCallsOf (a ++ b) = mkdirCallsOf a ++ mkdirCallsOf b := by
  simp [mkdirCallsOf, List.filterMap_append]

/-- Helper: the mkdir calls of one more event. -/
theorem mkdirCallsOf_cons (e : Ev) (rest : List Ev) :
    mkdirCallsOf (e :: rest)
      = (match e with | Ev.mkdir p => [p] | _ => []) ++ mkdirCallsOf rest := by
  cases e <;> simp [mkdirCallsOf, List.filterMap_cons]

/-- Helper: no events, no mkdir calls. -/
theorem mkdirCallsOf_nil : mkdirCallsOf [] = [] := rfl

/-- Helper: the mkdir calls recorded for a list of `Mkdir` events. -/
theorem mkdirCallsOf_map_mkdir (l : List String) :
    mkdirCallsOf (l.map Ev.mkdir) = l := by
  induction l with
  | nil => rfl
  | cons p rest ih =>
      rw [List.map_cons, mkdirCallsOf_cons, ih]
      rfl

/-- Helper: reconnect-send events contain no mkdir calls. -/
theorem mkdirCallsOf_map_send (bs : List Bool) :
    mkdirCallsOf (bs.map Ev.reconnectSend) = [] := by
  induction bs with
  | nil => rfl
  | cons b rest ih =>
      rw [List.map_cons, mkdirCallsOf_cons, ih]
      rfl

/-- Helper: `PutString` issues exactly the `Mkdir` calls of the shared
directory-creation loop, whatever the create and copy outcomes. -/
theorem mkdirCalls_putString (text rf : String) (createResult : Except String Unit)
    (copyErr : Option String) :
    mkdirCallsOf (PutString text rf createResult copyErr).1 = mkdirPaths rf := by
  cases createResult with
  | error msg =>
      simp only [PutString, mkdirCallsOf_append, mkdirCallsOf_cons, mkdirEvents,
        mkdirCallsOf_map_mkdir, mkdirCallsOf_map_send, mkdirCallsOf_nil]
      simp
  | ok u =>
      cases copyErr <;>
        · simp only [PutString, mkdirCallsOf_append, mkdirCallsOf_cons, mkdirEvents,
            mkdirCallsOf_map_mkdir, mkdirCallsOf_nil]
          simp

/-- Helper: `PutFile` (with the local file opened) issues exactly the
`Mkdir` calls of the shared directory-creation loop. -/
theorem mkdirCalls_putFile (rf : String) (createResult : Except String Unit)
    (copyErr : Option String) :
    mkdirCallsOf (PutFile (Except.ok ()) rf createResult copyErr).1 = mkdirPaths rf := by
  cases createResult with
  | error msg =>
      simp only [PutFile, mkdirCallsOf_append, mkdirCallsOf_cons, mkdirEvents,
        mkdirCallsOf_map_mkdir, mkdirCallsOf_map_send, mkdirCallsOf_nil]
      simp
  | ok u =>
      simp only [PutFile, mkdirCallsOf_append, mkdirCallsOf_cons, mkdirEvents,
        mkdirCallsOf_map_mkdir, mkdirCallsOf_nil]
      simp

/-- C7 (amended): for an absolute remote path with parent elements `ns`
(all well-formed) and file name `fname`, `PutFile` and `PutString` issue
one `Mkdir` call per element of `strings.Split(parent, "/")` — that is
`ns.length + 1` calls: `Mkdir("/")` for the empty leading split element,
then the ancestor prefixes in root-to-leaf order — and, the `Mkdir`
results being discarded, the operation outcomes are the same whatever
those calls return. -/
theorem putFile_putString_mkdir_per_split_element (ns : List (List Char))
    (fname : List Char) (hns : ∀ n ∈ ns, ValidSeg n) (hf : ValidSeg fname)
    (hne : ns ≠ []) :
    mkdirPathsL (absPathL (ns ++ [fname])) = ['/'] :: ancestorsFrom [] ns
    ∧ (mkdirPathsL (absPathL (ns ++ [fname]))).length = ns.length + 1
    ∧ (∀ text createResult copyErr,
        mkdirCallsOf (PutString text (String.mk (absPathL (ns ++ [fname]))) createResult copyErr).1
          = List.map String.mk (['/'] :: ancestorsFrom [] ns))
    ∧ (∀ createResult copyErr,
        mkdirCallsOf (PutFile (Except.ok ()) (String.mk (absPathL (ns ++ [fname]))) createResult copyErr).1
          = List.map String.mk (['/'] :: ancestorsFrom [] ns))
    ∧ (∀ text copyErr,
        (PutString text (String.mk (absPathL (ns ++ [fname]))) (Except.ok ()) copyErr).2
          = ExecResult.ok none)
    ∧ (∀ copyErr,
        (PutFile (Except.ok ()) (String.mk (absPathL (ns ++ [fname]))) (Except.ok ()) copyErr).2
          = ExecResult.ok copyErr) := by
  have hsplit : splitSep '/' (absPathL ns) = [] :: ns := by
    rw [absPathL, splitSep_cons_sep,
      splitSep_joinSep '/' ns hne (fun n hm => (hns n hm).2.1)]
  have hloop : mkdirLoop ['/'] [['/']] ns = (absPathL ns, ['/'] :: ancestorsFrom [] ns) :=
    mkdirLoop_valid ns [] [['/']] hns (by intro m hm; exact absurd hm (List.not_mem_nil m))
  have hmain : mkdirPathsL (absPathL (ns ++ [fname])) = ['/'] :: ancestorsFrom [] ns := by
    rw [mkdirPathsL, goDirL_absPath ns fname hns hf, hsplit]
    show (mkdirLoop ['/'] [['/']] ns).2 = _
    rw [hloop]
  have hpaths : mkdirPaths (String.mk (absPathL (ns ++ [fname])))
      = List.map String.mk (['/'] :: ancestorsFrom [] ns) := by
    rw [mkdirPaths]
    show (mkdirPathsL (absPathL (ns ++ [fname]))).map String.mk = _
    rw [hmain]
  refine ⟨hmain, ?_, ?_, ?_, ?_, ?_⟩
  · rw [hmain]
    simp [ancestorsFrom_length]
  · intro text createResult copyErr
    rw [mkdirCalls_putString, hpaths]
  · intro createResult copyErr
    rw [mkdirCalls_putFile, hpaths]
  · intro text copyErr
    cases copyErr <;> rfl
  · intro copyErr
    cases copyErr <;> rfl

/-- Witness for C7 (amended) at the concrete path `/a/b/c.txt` (parent
elements `a`, `b`): the Mkdir calls are `/`, `/a`, `/a/b`. -/
theorem putFile_putString_mkdir_per_split_element_witness :
    mkdirPathsL (absPathL ([['a'], ['b']] ++ [['c', '.', 't', 'x', 't']]))
      = [['/'], ['/', 'a'], ['/', 'a', '/', 'b']] :=
  ((putFile_putString_mkdir_per_split_element [['a'], ['b']] ['c', '.', 't', 'x', 't']
      (by decide) (by decide) (by decide)).1).trans (by decide)

/-- Counterexample to C7 as stated: the parent of `/a/b/c.txt` has two
directory segments (`a` and `b`), yet three `Mkdir` calls are issued —
the extra `Mkdir("/")` comes from the empty element that
`strings.Split` places in front of an absolute path. -/
theorem putString_mkdir_extra_root_call :
    mkdirPaths "/a/b/c.txt" = ["/", "/a", "/a/b"]
    ∧ (mkdirPaths "/a/b/c.txt").length ≠ 2
    ∧ mkdirCallsOf (PutString "hello" "/a/b/c.txt" (Except.ok ()) none).1
        = ["/", "/a", "/a/b"] := by
  refine ⟨by decide, by decide, ?_⟩
  rw [mkdirCalls_putString]
  decide

end Sftpgo
